import Mathlib

/-!
Shallow embedding of the MCP client orchestrator (`mcp-client.ts`): the
session registry, the qualified-name scheme used by `processQuery`, the
query-processing loop, the interactive chat loop, connection establishment
in `main`, and `cleanup`.

Strings are modelled as `List Char`.  External collaborators (the OpenAI
chat-completion endpoint, the MCP provider sessions, `JSON.parse`) are
modelled as oracles supplied as parameters; every externally visible
interaction is recorded in an event trace so that "the provider was (not)
contacted" and "the model service was called n times" are statable facts.
-/

namespace MCPClient

/-- Strings are modelled as lists of characters. -/
abbrev Str := List Char

/-- JS `String.prototype.split` specialised to the separator `"__"` used at
`mcp-client.ts` line 201 (`toolCall.function.name.split("__")`): scans left
to right, splitting at each non-overlapping occurrence of `"__"`. -/
def splitSep : Str → List Str
  | [] => [[]]
  | [a] => [[a]]
  | a :: b :: rest =>
    if a = '_' ∧ b = '_' then [] :: splitSep rest
    else
      match splitSep (b :: rest) with
      | [] => [[a]]
      | p :: ps => (a :: p) :: ps

/-- Whether the string contains an occurrence of the reserved separator
`"__"`. -/
def hasSep : Str → Bool
  | [] => false
  | [_] => false
  | a :: b :: rest => if a = '_' ∧ b = '_' then true else hasSep (b :: rest)

/-- Whether the string's last character is `'_'`. -/
def lastIsUnderscore : Str → Bool
  | [] => false
  | [a] => decide (a = '_')
  | _ :: b :: rest => lastIsUnderscore (b :: rest)

/-- The reverse mapping at dispatch time, `mcp-client.ts` line 201:
`const [serverName, toolName] = toolCall.function.name.split("__")`.
JS destructuring takes the first two pieces of the split; a missing second
piece is `undefined`, modelled as `none`. -/
def resolveParts (name : Str) : Str × Option Str :=
  match splitSep name with
  | [] => ([], none)
  | [s] => (s, none)
  | s :: t :: _ => (s, some t)

/-- Qualification of a tool name with its owning server's name,
`mcp-client.ts` line 175: `` `${serverName}__${tool.name}` ``. -/
def qualify (serverName toolName : Str) : Str :=
  serverName ++ '_' :: '_' :: toolName

/-- The piece of a string before its first `"__"` occurrence (the whole
string when there is none). -/
def headPiece (v : Str) : Str :=
  (splitSep v).headD []

theorem splitSep_ne_nil : ∀ l : Str, splitSep l ≠ []
  | [] => by simp [splitSep]
  | [a] => by simp [splitSep]
  | a :: b :: rest => by
    by_cases h : a = '_' ∧ b = '_'
    · simp [splitSep, h]
    · cases hs : splitSep (b :: rest) with
      | nil => simp [splitSep, h, hs]
      | cons p ps => simp [splitSep, h, hs]

theorem splitSep_noSep : ∀ l : Str, hasSep l = false → splitSep l = [l]
  | [], _ => rfl
  | [_], _ => rfl
  | a :: b :: rest, h => by
    simp only [hasSep, if_pos, if_neg] at h
    have h1 : ¬(a = '_' ∧ b = '_') := by
      intro hab
      simp [hab.1, hab.2] at h
    have h2 : hasSep (b :: rest) = false := by
      simp [h1] at h
      exact h
    have ih := splitSep_noSep (b :: rest) h2
    simp [splitSep, h1, ih]

theorem splitSep_append : ∀ p c : Str, hasSep p = false →
    lastIsUnderscore p = false →
    splitSep (p ++ '_' :: '_' :: c) = p :: splitSep c
  | [], c, _, _ => by simp [splitSep]
  | [a], c, _, hl => by
    have ha : ¬(a = '_') := by simpa [lastIsUnderscore] using hl
    simp [splitSep, ha]
  | a :: b :: p, c, hs, hl => by
    have h1 : ¬(a = '_' ∧ b = '_') := by
      intro hab
      simp [hasSep, hab.1, hab.2] at hs
    have h2 : hasSep (b :: p) = false := by
      simp [hasSep, h1] at hs
      exact hs
    have hl2 : lastIsUnderscore (b :: p) = false := by
      simpa [lastIsUnderscore] using hl
    have ih := splitSep_append (b :: p) c h2 hl2
    simp only [List.cons_append] at ih ⊢
    simp [splitSep, h1, ih]

theorem resolveParts_qualify (p c : Str) (hp : hasSep p = false)
    (hpl : lastIsUnderscore p = false) (hc : hasSep c = false) :
    resolveParts (qualify p c) = (p, some c) := by
  unfold resolveParts qualify
  rw [splitSep_append p c hp hpl, splitSep_noSep c hc]

/-- One entry of a JS `Map`-backed registry: lookup by key,
`Map.prototype.get` (`this.sessions.get(serverName)`). -/
def mapGet {α : Type} : List (Str × α) → Str → Option α
  | [], _ => none
  | (k, v) :: rest, key => if k = key then some v else mapGet rest key

/-- JS `Map.prototype.set` (`this.sessions.set(serverName, client)`): if the
key is present, replace its value in place; otherwise append the binding at
the end, preserving insertion order. -/
def mapSet {α : Type} : List (Str × α) → Str → α → List (Str × α)
  | [], key, v => [(key, v)]
  | (k, w) :: rest, key, v =>
    if k = key then (key, v) :: rest else (k, w) :: mapSet rest key v

/-- One advertised MCP tool as returned by `session.listTools()`:
`name`, `description`, `inputSchema` (the schema is carried opaquely). -/
structure Tool where
  name : Str
  description : Str
  inputSchema : Str
deriving DecidableEq

/-- The payload of one tool invocation result; `processQuery` reads
`result.content` (interface `MCPToolResult`). -/
structure ToolResult where
  content : Str
deriving DecidableEq

/-- A connected provider session (`Client` of the MCP SDK): its advertised
tool list (fetched at connect time, returned by `listTools`) and the
behaviour of `callTool`, modelled as an oracle from the local tool name
(`none` models the JS `undefined` produced when the qualified name had no
separator) and the parsed arguments to either a result or a thrown error. -/
structure Session where
  tools : List Tool
  callTool : Option Str → Str → Except Str ToolResult

/-- One model-issued tool call (`toolCall` in `processQuery`): correlation
`id`, qualified `function.name`, raw JSON `function.arguments`. -/
structure ToolCall where
  id : Str
  fname : Str
  arguments : Str
deriving DecidableEq

/-- The message of one completion choice: `content` may be `null`
(modelled `none`) and `tool_calls` may be absent (modelled `none`). -/
structure ChoiceMsg where
  content : Option Str
  tool_calls : Option (List ToolCall)
deriving DecidableEq

/-- One choice of a chat completion. -/
structure Choice where
  message : ChoiceMsg
deriving DecidableEq

/-- A chat completion returned by the model service. -/
structure Completion where
  choices : List Choice
deriving DecidableEq

/-- One entry of the `messages` array sent to the model service
(`ChatCompletionMessageParam`). -/
structure ChatMsg where
  role : Str
  content : Str
  tool_calls : List ToolCall
  tool_call_id : Option Str
deriving DecidableEq

/-- One flattened catalog entry handed to the model service (the
`function` object built at `mcp-client.ts` lines 172-179; the constant
`type: "function"` tag is omitted). -/
structure OATool where
  fname : Str
  description : Str
  parameters : Str
deriving DecidableEq

/-- Externally visible interactions of `processQuery`: a `listTools`
request to a provider, a chat-completion request to the model service
(recording the conversation state sent), and a `callTool` invocation on a
provider. -/
inductive Event where
  | listTools (server : Str)
  | llmCall (messages : List ChatMsg)
  | toolInvoke (server : Str) (tool : Option Str) (args : Str)
deriving DecidableEq

/-- The evolving state of one `processQuery` run: the completions the model
service will still return (consumed in order), the `messages` array, the
`finalText` accumulator, and the trace of external interactions so far. -/
structure PState where
  llm : List Completion
  messages : List ChatMsg
  finalText : List Str
  trace : List Event
deriving DecidableEq

/-- The user turn seeding the conversation (`mcp-client.ts` lines 161-166). -/
def userMsg (query : Str) : ChatMsg :=
  { role := "user".data, content := query, tool_calls := [], tool_call_id := none }

/-- The assistant turn recording one dispatched call
(`mcp-client.ts` lines 223-227). -/
def assistantCallMsg (tc : ToolCall) : ChatMsg :=
  { role := "assistant".data, content := [], tool_calls := [tc], tool_call_id := none }

/-- The tool-result turn for one dispatched call
(`mcp-client.ts` lines 228-232). -/
def toolResultMsg (tc : ToolCall) (result : ToolResult) : ChatMsg :=
  { role := "tool".data, content := result.content, tool_calls := [],
    tool_call_id := some tc.id }

/-- The degraded message for an unresolvable server name,
`mcp-client.ts` line 205: `[Error: Server ${serverName} not found]`. -/
def serverNotFoundMsg (serverName : Str) : Str :=
  "[Error: Server ".data ++ serverName ++ " not found]".data

/-- JS template rendering of an `Option Str` (`undefined` prints as the
text "undefined"). -/
def showOpt : Option Str → Str
  | none => "undefined".data
  | some s => s

/-- The progress line emitted before a call, `mcp-client.ts` lines 216-220:
`[Calling tool ${toolName} on server ${serverName} with args ...]`.
`JSON.stringify` of the parsed arguments is modelled as the argument text
itself, arguments being carried opaquely. -/
def callingMsg (toolName : Option Str) (serverName : Str) (args : Str) : Str :=
  "[Calling tool ".data ++ showOpt toolName ++ " on server ".data ++ serverName
    ++ " with args ".data ++ args ++ "]".data

/-- The guard error of `processQuery`, `mcp-client.ts` line 159. -/
def notConnectedMsg : Str :=
  "Not connected to any server".data

/-- The failure raised when the model service cannot be reached (the
oracle's completion list is exhausted). -/
def llmUnavailableMsg : Str :=
  "completion request failed".data

/-- The JS `TypeError` raised by `nextCompletion.choices[0].message` when
the follow-on completion has no choices. -/
def typeErrorMsg : Str :=
  "TypeError: choices[0] is undefined".data

/-- JS truthiness of `message.content`: `null`/`undefined` and the empty
string are falsy (`if (message.content)`). -/
def truthyContent : Option Str → Bool
  | none => false
  | some s => !s.isEmpty

/-- One chat-completion request (`this.openai.chat.completions.create`,
`mcp-client.ts` lines 184-189 and 237-242): the model service is modelled
as the list of completions it will return, consumed in order; the request
(which carries the full `messages` array plus the capability catalog) is
recorded in the trace.  An exhausted oracle models a failing request. -/
def createCompletion (st : PState) : Except (PState × Str) (Completion × PState) :=
  match st.llm with
  | [] => .error ({ st with trace := st.trace ++ [.llmCall st.messages] }, llmUnavailableMsg)
  | c :: rest =>
    .ok (c, { st with llm := rest, trace := st.trace ++ [.llmCall st.messages] })

/-- Step 1 of `processQuery` (`mcp-client.ts` lines 168-181): iterate the
session registry in insertion order, request each session's tool list, and
flatten the qualified catalog entries.  Each `session.listTools()` call is
recorded in the trace. -/
def catalogLoop : List (Str × Session) → PState → List OATool × PState
  | [], st => ([], st)
  | (serverName, session) :: rest, st =>
    let entries := session.tools.map fun tool =>
      { fname := qualify serverName tool.name,
        description := ('[' :: serverName) ++ (']' :: ' ' :: tool.description),
        parameters := tool.inputSchema : OATool }
    let r := catalogLoop rest { st with trace := st.trace ++ [.listTools serverName] }
    (entries ++ r.1, r.2)

/-- The inner dispatch loop of `processQuery` (`mcp-client.ts` lines
200-248): for each tool call, split the qualified name, look the server up
in the registry; on a miss push the degraded message and continue; on a hit
parse the arguments (`JSON.parse`, oracle `parse`), invoke the tool, push
the progress line and the result, extend the conversation, and request one
follow-on completion whose first choice's content (only) is appended.
Failures of `parse`, `callTool`, the follow-on request, or the
`choices[0]` access propagate as thrown errors carrying the state at the
throw point (its trace records the side effects already performed). -/
def dispatchCalls (sessions : List (Str × Session)) (parse : Str → Except Str Str) :
    List ToolCall → PState → Except (PState × Str) PState
  | [], st => .ok st
  | tc :: rest, st =>
    let serverName := (resolveParts tc.fname).1
    let toolName := (resolveParts tc.fname).2
    match mapGet sessions serverName with
    | none =>
      dispatchCalls sessions parse rest
        { st with finalText := st.finalText ++ [serverNotFoundMsg serverName] }
    | some session =>
      match parse tc.arguments with
      | .error e => .error (st, e)
      | .ok toolArgs =>
        match session.callTool toolName toolArgs with
        | .error e =>
          .error ({ st with trace := st.trace ++ [.toolInvoke serverName toolName toolArgs] }, e)
        | .ok result =>
          let st1 : PState :=
            { st with
              trace := st.trace ++ [.toolInvoke serverName toolName toolArgs],
              finalText := st.finalText ++ [callingMsg toolName serverName toolArgs, result.content],
              messages := st.messages ++ [assistantCallMsg tc, toolResultMsg tc result] }
          match createCompletion st1 with
          | .error err => .error err
          | .ok (next, st2) =>
            match next.choices with
            | [] => .error (st2, typeErrorMsg)
            | c0 :: _ =>
              dispatchCalls sessions parse rest
                (if truthyContent c0.message.content then
                  { st2 with finalText := st2.finalText ++ [c0.message.content.getD []] }
                else st2)

/-- The outer loop over `completion.choices` (`mcp-client.ts` lines
193-250): push truthy content, then dispatch the choice's tool calls, if
any. -/
def processChoices (sessions : List (Str × Session)) (parse : Str → Except Str Str) :
    List Choice → PState → Except (PState × Str) PState
  | [], st => .ok st
  | ch :: rest, st =>
    let st1 := if truthyContent ch.message.content then
      { st with finalText := st.finalText ++ [ch.message.content.getD []] }
    else st
    match ch.message.tool_calls with
    | none => processChoices sessions parse rest st1
    | some tcs =>
      match dispatchCalls sessions parse tcs st1 with
      | .error e => .error e
      | .ok st2 => processChoices sessions parse rest st2

/-- `MCPClient.processQuery` (`mcp-client.ts` lines 157-252): guard against
an empty registry, seed the conversation with the user turn, build the
capability catalog, request the first completion, and process its choices.
The returned state's `finalText` is what the source joins with newlines and
returns. -/
def processQuery (sessions : List (Str × Session)) (parse : Str → Except Str Str)
    (llm : List Completion) (query : Str) : Except (PState × Str) PState :=
  let st0 : PState := { llm := llm, messages := [], finalText := [], trace := [] }
  if sessions.length = 0 then .error (st0, notConnectedMsg)
  else
    let st1 := { st0 with messages := [userMsg query] }
    let st2 := (catalogLoop sessions st1).2
    match createCompletion st2 with
    | .error e => .error e
    | .ok (completion, st3) => processChoices sessions parse completion.choices st3

/-- `finalText.join("\n")` (`mcp-client.ts` line 251). -/
def joinNl (l : List Str) : Str :=
  List.intercalate ['\n'] l

/-- JS `String.prototype.trim` on one input line. -/
def jsTrim (s : Str) : Str :=
  ((s.dropWhile Char.isWhitespace).reverse.dropWhile Char.isWhitespace).reverse

/-- JS `String.prototype.toLowerCase` (ASCII suffices for the sentinel). -/
def jsLower (s : Str) : Str :=
  s.map Char.toLower

/-- The exit sentinel of the interactive loop. -/
def quitStr : Str :=
  "quit".data

/-- Prefix of the line printed by the `catch` of `chatLoop`
(`console.error("\nError:", error)`, `mcp-client.ts` line 276). -/
def errorLine (e : Str) : Str :=
  "Error: ".data ++ e

/-- `MCPClient.chatLoop` (`mcp-client.ts` lines 254-282), with the readline
interface modelled as a finite list of input lines: each line is trimmed;
the case-insensitive sentinel `"quit"` stops the loop; otherwise the query
is processed and either its response or — when processing throws — an error
line is emitted, and the loop continues with the next line.  `step` is the
per-query processing (`this.processQuery`). -/
def chatLoop (step : Str → Except (PState × Str) PState) : List Str → List Str
  | [] => []
  | line :: rest =>
    let query := jsTrim line
    if jsLower query = quitStr then []
    else
      (match step query with
        | .ok st => joinNl st.finalText
        | .error (_, e) => errorLine e) :: chatLoop step rest

/-- A transport binding as `cleanup` sees it: the outcome of its `close()`
call (`none` = closes normally, `some e` = `close()` throws `e`). -/
structure Transport where
  closeFailure : Option Str
deriving DecidableEq

/-- The mutable maps of `MCPClient`: `sessions` and `transports`, both JS
`Map`s in insertion order. -/
structure ClientState where
  sessions : List (Str × Session)
  transports : List (Str × Transport)

/-- A freshly constructed `MCPClient`: both maps empty. -/
def emptyState : ClientState :=
  { sessions := [], transports := [] }

/-- `MCPClient.connectToServer` (`mcp-client.ts` lines 77-124).  The
config lookup, transport creation and `client.connect` (lines 78-114) are
external effects folded into the `connect` oracle: it either yields the
connected session (with its capability list) and its transport binding, or
throws.  On success the session and transport are registered under the
server name (lines 116-117; a plain `Map.set`, no duplicate check).  The
closing `listTools` console log (lines 119-123) reads the session's cached
tool list. -/
def connectToServer (connect : Str → Except Str (Session × Transport))
    (st : ClientState) (serverName : Str) : Except Str ClientState :=
  match connect serverName with
  | .error e => .error e
  | .ok (session, transport) =>
    .ok { sessions := mapSet st.sessions serverName session,
          transports := mapSet st.transports serverName transport }

/-- The connect-all loop of `main` (`mcp-client.ts` lines 302-308): each
configured open server is attempted in order; a failure is recorded
(`console.error`, returned here as the list of (name, error) pairs) and the
loop continues with the next server. -/
def connectAll (connect : Str → Except Str (Session × Transport)) :
    List Str → ClientState → ClientState × List (Str × Str)
  | [], st => (st, [])
  | serverName :: rest, st =>
    match connectToServer connect st serverName with
    | .ok st2 => connectAll connect rest st2
    | .error e =>
      let r := connectAll connect rest st
      (r.1, (serverName, e) :: r.2)

/-- The fatal startup error of `main` (`mcp-client.ts` line 310). -/
def failedConnectMsg : Str :=
  "Failed to connect to any server".data

/-- The startup phase of `main` (`mcp-client.ts` lines 295-312): connect to
every configured open server, then check `hasActiveSessions()`
(`this.sessions.size > 0`); when no session was registered, throw before
ever entering `chatLoop`.  `.ok st` means the run proceeds to the
conversation loop with registry `st`. -/
def mainRun (connect : Str → Except Str (Session × Transport))
    (openServers : List Str) : Except Str ClientState :=
  let r := connectAll connect openServers emptyState
  if r.1.sessions.length = 0 then .error failedConnectMsg else .ok r.1

/-- The `for (const transport of this.transports.values())` loop of
`cleanup` (`mcp-client.ts` lines 284-286): close each binding in order;
returns the names closed so far and, when some `close()` throws, the
escaping error — in which case the remaining bindings are not visited. -/
def cleanupLoop : List (Str × Transport) → List Str × Option Str
  | [] => ([], none)
  | (serverName, t) :: rest =>
    match t.closeFailure with
    | some e => ([], some e)
    | none =>
      let r := cleanupLoop rest
      (serverName :: r.1, r.2)

/-- The outcome of one `cleanup()` call: which bindings were closed (in
order), the error that escaped (if any), and the client state afterwards. -/
structure CleanupResult where
  closed : List Str
  raised : Option Str
  finalState : ClientState

/-- `MCPClient.cleanup` (`mcp-client.ts` lines 283-289): close every
transport in insertion order, then clear both maps.  There is no `try`
around the loop: a throwing `close()` escapes immediately, skipping the
remaining closes and the `clear()` calls, so the maps keep their contents
on that path. -/
def cleanup (st : ClientState) : CleanupResult :=
  match cleanupLoop st.transports with
  | (closed, none) => { closed := closed, raised := none, finalState := emptyState }
  | (closed, some e) => { closed := closed, raised := some e, finalState := st }

/-- Recognises chat-completion request events. -/
def isLLMEvent : Event → Bool
  | .llmCall _ => true
  | _ => false

/-- Recognises tool-invocation events. -/
def isInvokeEvent : Event → Bool
  | .toolInvoke _ _ _ => true
  | _ => false

/-- Number of chat-completion requests in a trace. -/
def llmCount (tr : List Event) : Nat :=
  tr.countP isLLMEvent

/-- Number of tool invocations in a trace. -/
def invCount (tr : List Event) : Nat :=
  tr.countP isInvokeEvent

theorem mapGet_mapSet_self {α : Type} : ∀ (m : List (Str × α)) (k : Str) (v : α),
    mapGet (mapSet m k v) k = some v
  | [], k, v => by simp [mapSet, mapGet]
  | (k1, w) :: rest, k, v => by
    by_cases h : k1 = k
    · simp [mapSet, mapGet, h]
    · simp [mapSet, mapGet, h, mapGet_mapSet_self rest k v]

theorem mapGet_mapSet_ne {α : Type} : ∀ (m : List (Str × α)) (k k2 : Str) (v : α),
    k2 ≠ k → mapGet (mapSet m k v) k2 = mapGet m k2
  | [], k, k2, v, hne => by
    have h : ¬(k = k2) := fun heq => hne heq.symm
    simp [mapSet, mapGet, h]
  | (k1, w) :: rest, k, k2, v, hne => by
    by_cases h : k1 = k
    · subst h
      have h2 : ¬(k1 = k2) := fun heq => hne heq.symm
      simp [mapSet, mapGet, h2]
    · simp [mapSet, mapGet, h, mapGet_mapSet_ne rest k k2 v hne]

theorem mapSet_length_of_isSome {α : Type} : ∀ (m : List (Str × α)) (k : Str) (v : α),
    (mapGet m k).isSome = true → (mapSet m k v).length = m.length
  | [], k, v, h => by simp [mapGet] at h
  | (k1, w) :: rest, k, v, h => by
    by_cases hk : k1 = k
    · simp [mapSet, hk]
    · have h2 : (mapGet rest k).isSome = true := by simpa [mapGet, hk] using h
      simp [mapSet, hk, mapSet_length_of_isSome rest k v h2]

theorem mapSet_length_of_none {α : Type} : ∀ (m : List (Str × α)) (k : Str) (v : α),
    mapGet m k = none → (mapSet m k v).length = m.length + 1
  | [], k, v, _ => by simp [mapSet]
  | (k1, w) :: rest, k, v, h => by
    by_cases hk : k1 = k
    · simp [mapGet, hk] at h
    · have h2 : mapGet rest k = none := by simpa [mapGet, hk] using h
      simp [mapSet, hk, mapSet_length_of_none rest k v h2]

theorem catalogLoop_state : ∀ (sessions : List (Str × Session)) (st : PState),
    (catalogLoop sessions st).2 =
      { st with trace := st.trace ++ sessions.map fun p => Event.listTools p.1 }
  | [], st => by simp [catalogLoop]
  | (n, s) :: rest, st => by
    simp [catalogLoop, catalogLoop_state rest]

theorem cleanupLoop_allOk : ∀ l : List (Str × Transport),
    (∀ p ∈ l, p.2.closeFailure = none) → cleanupLoop l = (l.map Prod.fst, none)
  | [], _ => rfl
  | (n, t) :: rest, h => by
    have h1 : t.closeFailure = none := h (n, t) (by simp)
    have ih := cleanupLoop_allOk rest fun p hp => h p (by simp [hp])
    simp [cleanupLoop, h1, ih]

theorem cleanupLoop_firstFail : ∀ (pre : List (Str × Transport)) (n : Str)
    (t : Transport) (post : List (Str × Transport)) (e : Str),
    (∀ p ∈ pre, p.2.closeFailure = none) → t.closeFailure = some e →
    cleanupLoop (pre ++ (n, t) :: post) = (pre.map Prod.fst, some e)
  | [], n, t, post, e, _, ht => by simp [cleanupLoop, ht]
  | (k, w) :: pre, n, t, post, e, hpre, ht => by
    have h1 : w.closeFailure = none := hpre (k, w) (by simp)
    have ih := cleanupLoop_firstFail pre n t post e (fun p hp => hpre p (by simp [hp])) ht
    simp [cleanupLoop, h1, ih]

/-- Whether an `Except` value carries a success. -/
def isOkB {ε α : Type} : Except ε α → Bool
  | .ok _ => true
  | .error _ => false

theorem connectAll_sessions_length (connect : Str → Except Str (Session × Transport)) :
    ∀ (names : List Str) (st : ClientState),
    names.Nodup → (∀ n ∈ names, mapGet st.sessions n = none) →
    (connectAll connect names st).1.sessions.length =
      st.sessions.length + (names.filter fun n => isOkB (connect n)).length
  | [], st, _, _ => by simp [connectAll]
  | n :: rest, st, hnd, hfresh => by
    cases hc : connect n with
    | error e =>
      have ih := connectAll_sessions_length connect rest st (List.Nodup.of_cons hnd)
        fun m hm => hfresh m (by simp [hm])
      have hfil : List.filter (fun m => isOkB (connect m)) (n :: rest) =
          List.filter (fun m => isOkB (connect m)) rest := by
        rw [List.filter_cons]
        simp [hc, isOkB]
      simp only [connectAll, connectToServer, hc]
      rw [hfil]
      exact ih
    | ok pair =>
      obtain ⟨session, transport⟩ := pair
      have hfreshn : mapGet st.sessions n = none := hfresh n (by simp)
      have hlen : (mapSet st.sessions n session).length = st.sessions.length + 1 :=
        mapSet_length_of_none st.sessions n session hfreshn
      have hfresh2 : ∀ m ∈ rest, mapGet (mapSet st.sessions n session) m = none := by
        intro m hm
        have hmn : m ≠ n := by
          intro hmn
          exact (List.nodup_cons.mp hnd).1 (hmn ▸ hm)
        rw [mapGet_mapSet_ne st.sessions n m session hmn]
        exact hfresh m (by simp [hm])
      have ih := connectAll_sessions_length connect rest
        { sessions := mapSet st.sessions n session,
          transports := mapSet st.transports n transport }
        (List.Nodup.of_cons hnd) hfresh2
      have hfil : List.filter (fun m => isOkB (connect m)) (n :: rest) =
          n :: List.filter (fun m => isOkB (connect m)) rest := by
        rw [List.filter_cons]
        simp [hc, isOkB]
      simp only [connectAll, connectToServer, hc]
      rw [hfil]
      simp only [List.length_cons]
      rw [ih, hlen]
      omega

theorem connectAll_errors (connect : Str → Except Str (Session × Transport)) :
    ∀ (names : List Str) (st : ClientState),
    (connectAll connect names st).2 =
      names.filterMap fun n =>
        match connect n with
        | .error e => some (n, e)
        | .ok _ => none
  | [], st => by simp [connectAll]
  | n :: rest, st => by
    cases hc : connect n with
    | error e =>
      simp [connectAll, connectToServer, hc, connectAll_errors connect rest]
    | ok pair =>
      simp [connectAll, connectToServer, hc, connectAll_errors connect rest]

theorem connectAll_state_of_allFail (connect : Str → Except Str (Session × Transport)) :
    ∀ (names : List Str) (st : ClientState),
    (∀ n ∈ names, isOkB (connect n) = false) →
    (connectAll connect names st).1 = st
  | [], st, _ => rfl
  | n :: rest, st, h => by
    cases hc : connect n with
    | error e =>
      simp [connectAll, connectToServer, hc,
        connectAll_state_of_allFail connect rest st fun m hm => h m (by simp [hm])]
    | ok pair =>
      have := h n (by simp)
      simp [hc, isOkB] at this

theorem llmCount_append (a b : List Event) :
    llmCount (a ++ b) = llmCount a + llmCount b := by
  simp [llmCount, List.countP_append]

theorem invCount_append (a b : List Event) :
    invCount (a ++ b) = invCount a + invCount b := by
  simp [invCount, List.countP_append]

theorem llmCount_listTools_map (sessions : List (Str × Session)) :
    llmCount (sessions.map fun p => Event.listTools p.1) = 0 := by
  induction sessions with
  | nil => rfl
  | cons p rest ih => simp [llmCount, List.countP_cons, isLLMEvent]

theorem invCount_listTools_map (sessions : List (Str × Session)) :
    invCount (sessions.map fun p => Event.listTools p.1) = 0 := by
  induction sessions with
  | nil => rfl
  | cons p rest ih => simp [invCount, List.countP_cons, isInvokeEvent]

theorem dispatchCalls_counts (sessions : List (Str × Session))
    (parse : Str → Except Str Str) :
    ∀ (tcs : List ToolCall) (st st2 : PState),
    dispatchCalls sessions parse tcs st = .ok st2 →
    llmCount st2.trace + invCount st.trace = llmCount st.trace + invCount st2.trace
  | [], st, st2, h => by
    simp only [dispatchCalls, Except.ok.injEq] at h
    subst h
    rfl
  | tc :: rest, st, st2, h => by
    simp only [dispatchCalls] at h
    cases hget : mapGet sessions (resolveParts tc.fname).1 with
    | none =>
      simp only [hget] at h
      exact dispatchCalls_counts sessions parse rest
        { st with finalText := st.finalText ++ [serverNotFoundMsg (resolveParts tc.fname).1] }
        st2 h
    | some session =>
      simp only [hget] at h
      cases hparse : parse tc.arguments with
      | error e => simp only [hparse] at h; simp at h
      | ok toolArgs =>
        simp only [hparse] at h
        cases hcall : session.callTool (resolveParts tc.fname).2 toolArgs with
        | error e => simp only [hcall] at h; simp at h
        | ok result =>
          simp only [hcall] at h
          simp only [createCompletion] at h
          cases hllm : st.llm with
          | nil => simp [hllm] at h
          | cons c restLlm =>
            simp only [hllm] at h
            cases hch : c.choices with
            | nil => simp [hch] at h
            | cons c0 cs =>
              simp only [hch] at h
              cases htr : truthyContent c0.message.content with
              | true =>
                simp only [htr, if_true] at h
                have ih := dispatchCalls_counts sessions parse rest _ st2 h
                simp only [llmCount_append, invCount_append] at ih
                simp only [llmCount, invCount, List.countP_cons, List.countP_nil,
                  isLLMEvent, isInvokeEvent] at ih ⊢
                omega
              | false =>
                simp only [htr, if_false, Bool.false_eq_true] at h
                have ih := dispatchCalls_counts sessions parse rest _ st2 h
                simp only [llmCount_append, invCount_append] at ih
                simp only [llmCount, invCount, List.countP_cons, List.countP_nil,
                  isLLMEvent, isInvokeEvent] at ih ⊢
                omega

theorem processChoices_counts (sessions : List (Str × Session))
    (parse : Str → Except Str Str) :
    ∀ (chs : List Choice) (st st2 : PState),
    processChoices sessions parse chs st = .ok st2 →
    llmCount st2.trace + invCount st.trace = llmCount st.trace + invCount st2.trace
  | [], st, st2, h => by
    simp only [processChoices, Except.ok.injEq] at h
    subst h
    rfl
  | ch :: rest, st, st2, h => by
    simp only [processChoices] at h
    cases htc : ch.message.tool_calls with
    | none =>
      simp only [htc] at h
      have ih := processChoices_counts sessions parse rest _ st2 h
      cases htr : truthyContent ch.message.content with
      | true => simpa [htr] using ih
      | false => simpa [htr] using ih
    | some tcs =>
      simp only [htc] at h
      cases hdc : dispatchCalls sessions parse tcs
          (if truthyContent ch.message.content then
            { st with finalText := st.finalText ++ [ch.message.content.getD []] }
          else st) with
      | error e => simp only [hdc] at h; simp at h
      | ok stMid =>
        simp only [hdc] at h
        have ih := processChoices_counts sessions parse rest stMid st2 h
        have hd := dispatchCalls_counts sessions parse tcs _ stMid hdc
        cases htr : truthyContent ch.message.content with
        | true =>
          rw [htr] at hd
          simp only [if_true] at hd
          have hd2 : llmCount stMid.trace + invCount st.trace =
              llmCount st.trace + invCount stMid.trace := hd
          omega
        | false =>
          rw [htr] at hd
          simp only [Bool.false_eq_true, if_false] at hd
          omega

/-- Concrete tool used by the test fixtures. -/
def toolT : Tool :=
  { name := ['t'], description := [], inputSchema := [] }

/-- A provider session whose tool calls always succeed. -/
def sessA : Session :=
  { tools := [toolT], callTool := fun _ _ => .ok { content := ['o', 'k'] } }

/-- A provider session with no tools whose tool calls always succeed. -/
def sessB : Session :=
  { tools := [], callTool := fun _ _ => .ok { content := [] } }

/-- A provider session whose tool calls always throw. -/
def failSess : Session :=
  { tools := [toolT], callTool := fun _ _ => .error "boom".data }

/-- A `JSON.parse` oracle that accepts every argument text. -/
def parseOk : Str → Except Str Str :=
  fun s => .ok s

/-- An empty `processQuery` state fixture. -/
def st0 : PState :=
  { llm := [], messages := [], finalText := [], trace := [] }

/-- A tool call whose qualified name targets the unregistered server `z`. -/
def tcBad : ToolCall :=
  { id := ['1'], fname := ['z', '_', '_', 't'], arguments := ['x'] }

/-- A tool call targeting server `a`, tool `t`, arguments `x`. -/
def tcA : ToolCall :=
  { id := ['1'], fname := ['a', '_', '_', 't'], arguments := ['x'] }

/-- A second tool call targeting server `a`, tool `t`, arguments `y`. -/
def tcA2 : ToolCall :=
  { id := ['2'], fname := ['a', '_', '_', 't'], arguments := ['y'] }

/-- **C6.** "For every provider name p and local capability name c, neither
containing the reserved separator `__`, resolving the qualified name built
from p and c yields back exactly the pair (p, c)."  This fails as stated:
the provider name `a_` and the tool name `b` contain no `__`, yet
`qualify "a_" "b" = "a___b"` and JS `split("__")` finds its first
occurrence inside the junction, so the code resolves the pair to
`("a", "_b")`, not `("a_", "b")`. -/
theorem c6_counterexample :
    hasSep ['a', '_'] = false ∧ hasSep ['b'] = false ∧
    resolveParts (qualify ['a', '_'] ['b']) ≠ (['a', '_'], some ['b']) ∧
    resolveParts (qualify ['a', '_'] ['b']) = (['a'], some ['_', 'b']) := by
  decide

/-- **C6 (amended).** For every provider name p and local capability name c
where neither contains the reserved separator `__` and p additionally does
not end in `_`, resolving the qualified name built from p and c yields back
exactly the pair (p, c). -/
theorem c6_theorem (p c : Str) (hp : hasSep p = false)
    (hpl : lastIsUnderscore p = false) (hc : hasSep c = false) :
    resolveParts (qualify p c) = (p, some c) :=
  resolveParts_qualify p c hp hpl hc

/-- Witness for `c6_theorem` at p = "a", c = "b". -/
theorem c6_witness :
    hasSep ['a'] = false ∧ lastIsUnderscore ['a'] = false ∧ hasSep ['b'] = false ∧
    resolveParts (qualify ['a'] ['b']) = (['a'], some ['b']) :=
  ⟨by decide, by decide, by decide, c6_theorem ['a'] ['b'] (by decide) (by decide) (by decide)⟩

/-- **C7.** The claim says resolve returns the entire remainder after the
first separator occurrence (including further occurrences) as the local
name.  It does not: `"a__b__c".split("__")` is `["a","b","c"]` and the JS
destructuring takes only the second piece, so the local name is `"b"`, not
`"b__c"`. -/
theorem c7_counterexample :
    resolveParts ['a', '_', '_', 'b', '_', '_', 'c'] = (['a'], some ['b']) ∧
    resolveParts ['a', '_', '_', 'b', '_', '_', 'c'] ≠
      (['a'], some ['b', '_', '_', 'c']) := by
  decide

/-- **C7 (amended).** For every qualified name containing the reserved
separator — written as u ++ "__" ++ v with u the text before the first
occurrence (u contains no `__` and does not end in `_`) — resolve returns u
as the provider name and the text between the first and the second
occurrence (all of v only when v has no further occurrence) as the local
name. -/
theorem c7_theorem (u v : Str) (hu : hasSep u = false)
    (hl : lastIsUnderscore u = false) :
    resolveParts (u ++ '_' :: '_' :: v) = (u, some (headPiece v)) := by
  unfold resolveParts headPiece
  rw [splitSep_append u v hu hl]
  obtain ⟨h, t, heq⟩ := List.exists_cons_of_ne_nil (splitSep_ne_nil v)
  rw [heq]
  rfl

/-- Witness for `c7_theorem` at u = "a", v = "b__c". -/
theorem c7_witness :
    hasSep ['a'] = false ∧ lastIsUnderscore ['a'] = false ∧
    resolveParts (['a'] ++ '_' :: '_' :: ['b', '_', '_', 'c']) =
      (['a'], some (headPiece ['b', '_', '_', 'c'])) :=
  ⟨by decide, by decide, c7_theorem ['a'] ['b', '_', '_', 'c'] (by decide) (by decide)⟩

/-- **C8.** A Call Request whose qualified name does not resolve to a
registered provider appends exactly one degraded error message (naming the
server taken from that request's qualified name) to the accumulated output,
leaves the conversation state, the trace (no provider is contacted: no
`toolInvoke` event, no `listTools` event) and the pending completions
untouched, and the remaining Call Requests of the same Model-Turn are then
processed in order from that state — the dispatch loop continues
unchanged. -/
theorem c8_theorem (sessions : List (Str × Session)) (parse : Str → Except Str Str)
    (tc : ToolCall) (rest : List ToolCall) (st : PState)
    (h : mapGet sessions (resolveParts tc.fname).1 = none) :
    dispatchCalls sessions parse (tc :: rest) st =
      dispatchCalls sessions parse rest
        { st with finalText := st.finalText ++ [serverNotFoundMsg (resolveParts tc.fname).1] } := by
  simp [dispatchCalls, h]

/-- Witness for `c8_theorem`: the server `z` of `tcBad` is not registered
in the registry holding only `a`. -/
theorem c8_witness :
    mapGet [(['a'], sessA)] (resolveParts tcBad.fname).1 = none ∧
    dispatchCalls [(['a'], sessA)] parseOk [tcBad, tcA] st0 =
      dispatchCalls [(['a'], sessA)] parseOk [tcA]
        { st0 with finalText := st0.finalText ++ [serverNotFoundMsg (resolveParts tcBad.fname).1] } :=
  ⟨rfl, c8_theorem [(['a'], sessA)] parseOk tcBad [tcA] st0 rfl⟩

/-- **C10.** For every query, parse oracle and model-service oracle, when
the session registry is empty `processQuery` throws "Not connected to any
server" immediately: the state at the throw has an empty trace (no
provider `listTools` call, no model-service call, no tool invocation — so
no capability catalog was built and nothing external was contacted) and
even the conversation state is still empty. -/
theorem c10_theorem (parse : Str → Except Str Str) (llm : List Completion) (query : Str) :
    processQuery [] parse llm query =
      .error ({ llm := llm, messages := [], finalText := [], trace := [] }, notConnectedMsg) :=
  rfl

/-- First completion fixture: one choice, no content, one Call Request
(`tcA`). -/
def compFirst : Completion :=
  { choices := [{ message := { content := none, tool_calls := some [tcA] } }] }

/-- Follow-on completion fixture: one choice with content "ans" and one
further Call Request (`tcA2`). -/
def compFollow : Completion :=
  { choices := [{ message := { content := some ['a', 'n', 's'], tool_calls := some [tcA2] } }] }

/-- **C1.** The claim says the Conversation Loop re-enters Model-Turn after
all Call Requests of a turn are dispatched and keeps repeating until a turn
with zero Call Requests, dispatching in particular the Call Requests of
follow-on turns.  Concretely: the model first returns one Call Request
(`compFirst`), and its follow-on turn (`compFollow`) returns another Call
Request (`tcA2`).  The code consumes both completions (two `llmCall`
events) but performs exactly one tool invocation: the follow-on's Call
Request is never dispatched, and the run ends even though the last turn had
a nonzero number of Call Requests. -/
theorem c1_counterexample :
    compFollow.choices =
      [{ message := { content := some ['a', 'n', 's'], tool_calls := some [tcA2] } }] ∧
    (processQuery [(['a'], sessA)] parseOk [compFirst, compFollow] ['q']).map
        (fun st => (llmCount st.trace, invCount st.trace)) = .ok (2, 1) := by
  constructor
  · rfl
  · rfl

/-- **C1 (amended).** For every registry, parse oracle, model-service
oracle and query on which `processQuery` succeeds, the number of
model-service calls is exactly one (the initial Model-Turn) plus the number
of dispatched Call Requests: the loop performs one follow-on Model-Turn
immediately after each dispatched Call Request (appending only its
free-text), never dispatches Call Requests returned by follow-on turns, and
ends when the initial turn's Call Requests are exhausted rather than when
the model returns a turn with zero Call Requests. -/
theorem c1_theorem (sessions : List (Str × Session)) (parse : Str → Except Str Str)
    (llm : List Completion) (query : Str) (st : PState)
    (h : processQuery sessions parse llm query = .ok st) :
    llmCount st.trace = 1 + invCount st.trace := by
  unfold processQuery at h
  by_cases hlen : sessions.length = 0
  · simp [hlen] at h
  · simp only [hlen, if_false] at h
    rw [catalogLoop_state] at h
    simp only [createCompletion] at h
    cases hllm : llm with
    | nil => simp [hllm] at h
    | cons c restLlm =>
      simp only [hllm] at h
      have hc := processChoices_counts sessions parse c.choices _ st h
      simp only [llmCount_append, invCount_append] at hc
      rw [llmCount_listTools_map, invCount_listTools_map] at hc
      simp [llmCount, invCount, List.countP_cons, List.countP_nil,
        isLLMEvent, isInvokeEvent] at hc ⊢
      omega

/-- Answer-only completion fixture: one choice with content "yes" and no
tool calls. -/
def compAns : Completion :=
  { choices := [{ message := { content := some ['y', 'e', 's'], tool_calls := none } }] }

/-- The final state of `processQuery` on the `compAns` fixture. -/
def c1wState : PState :=
  { llm := [], messages := [userMsg ['q']], finalText := [['y', 'e', 's']],
    trace := [.listTools ['a'], .llmCall [userMsg ['q']]] }

/-- Witness for `c1_theorem` on a concrete run with no tool calls. -/
theorem c1_witness :
    llmCount c1wState.trace = 1 + invCount c1wState.trace :=
  c1_theorem [(['a'], sessA)] parseOk [compAns] ['q'] c1wState rfl

/-- Completion fixture with two Call Requests for server `a` in one turn. -/
def compTwoCalls : Completion :=
  { choices := [{ message := { content := none, tool_calls := some [tcA, tcA2] } }] }

/-- The state at the throw point when `failSess.callTool` fails on the
first of the two Call Requests of `compTwoCalls`. -/
def c2ErrState : PState :=
  { llm := [], messages := [userMsg ['q']], finalText := [],
    trace := [.listTools ['a'], .llmCall [userMsg ['q']], .toolInvoke ['a'] (some ['t']) ['x']] }

/-- **C2.** The claim says an invoke failure is converted into a visible
non-fatal message and never aborts the whole query.  It is false: there is
no try/catch around `session.callTool`, so when the provider `a` throws on
the first of two Call Requests, `processQuery` itself throws the raw error
("boom").  At the throw point no degraded message was appended
(`finalText` is empty, and what was accumulated is discarded) and the
second Call Request of the same turn was never processed (the trace holds
exactly one `toolInvoke`). -/
theorem c2_counterexample :
    processQuery [(['a'], failSess)] parseOk [compTwoCalls] ['q'] =
      .error (c2ErrState, "boom".data) ∧
    c2ErrState.finalText = [] ∧
    invCount c2ErrState.trace = 1 := by
  refine ⟨rfl, rfl, rfl⟩

/-- **C2 (amended).** When invoking a resolved provider's tool fails, the
failure propagates out of `processQuery` unchanged — the query is aborted,
no degraded message is produced and the remaining Call Requests are not
processed.  The failure is non-fatal only one level up: the interactive
chat loop catches whatever `processQuery` throws, prints an error line, and
continues with the next query. -/
theorem c2_theorem :
    (∀ (sessions : List (Str × Session)) (parse : Str → Except Str Str)
        (llmRest : List Completion) (query : Str) (tc : ToolCall)
        (session : Session) (args e : Str),
      sessions ≠ [] →
      mapGet sessions (resolveParts tc.fname).1 = some session →
      parse tc.arguments = .ok args →
      session.callTool (resolveParts tc.fname).2 args = .error e →
      ∃ stErr, processQuery sessions parse
          ({ choices := [{ message := { content := none, tool_calls := some [tc] } }] } :: llmRest)
          query = .error (stErr, e)) ∧
    (∀ (step : Str → Except (PState × Str) PState) (line : Str)
        (rest : List Str) (stErr : PState) (e : Str),
      jsLower (jsTrim line) ≠ quitStr →
      step (jsTrim line) = .error (stErr, e) →
      chatLoop step (line :: rest) = errorLine e :: chatLoop step rest) := by
  constructor
  · intro sessions parse llmRest query tc session args e hne hget hparse hcall
    have hlen : ¬(sessions.length = 0) := by
      simpa [List.length_eq_zero] using hne
    exact ⟨_, by
      unfold processQuery
      simp only [hlen, if_false]
      rw [catalogLoop_state]
      simp only [createCompletion, processChoices, truthyContent,
        dispatchCalls, hget, hparse, hcall]
      simp only [Bool.false_eq_true, if_false, List.nil_append]
      rfl⟩
  · intro step line rest stErr e hq hstep
    simp [chatLoop, hq, hstep]

/-- A processing step that always throws, fixture for the chat-loop half of
the C2 witness. -/
def stepFail : Str → Except (PState × Str) PState :=
  fun _ => .error (st0, "boom".data)

/-- Completion fixture with a single Call Request for server `a`. -/
def compOneCall : Completion :=
  { choices := [{ message := { content := none, tool_calls := some [tcA] } }] }

/-- Witness for `c2_theorem`: the failing provider aborts the concrete
query, and the chat loop emits an error line and continues. -/
theorem c2_witness :
    (∃ stErr, processQuery [(['a'], failSess)] parseOk [compOneCall] ['q'] =
      .error (stErr, "boom".data)) ∧
    chatLoop stepFail [['w'], ['q', 'u', 'i', 't']] =
      errorLine "boom".data :: chatLoop stepFail [['q', 'u', 'i', 't']] :=
  ⟨c2_theorem.1 [(['a'], failSess)] parseOk [] ['q'] tcA failSess ['x'] "boom".data
      (by simp) rfl rfl rfl,
    c2_theorem.2 stepFail ['w'] [['q', 'u', 'i', 't']] st0 "boom".data (by decide) rfl⟩

/-- A transport binding whose `close()` succeeds. -/
def transOk : Transport :=
  { closeFailure := none }

/-- A transport binding whose `close()` throws. -/
def transBad : Transport :=
  { closeFailure := some "closefail".data }

/-- Client state fixture: two connected providers, the first of which has a
transport whose `close()` throws. -/
def stTwoTrans : ClientState :=
  { sessions := [(['a'], sessA), (['b'], sessB)],
    transports := [(['a'], transBad), (['b'], transOk)] }

/-- Client state fixture: one connected provider with a well-behaved
transport. -/
def stOneOk : ClientState :=
  { sessions := [(['a'], sessA)], transports := [(['a'], transOk)] }

/-- **C3.** The claim says `cleanup` collects close failures, completes
without raising and still closes the remaining bindings.  It is false: with
two registered transports whose first `close()` throws, `cleanup` raises
that error, closes zero bindings (the second is never visited) and leaves
the registry uncleared. -/
theorem c3_counterexample :
    (cleanup stTwoTrans).raised = some "closefail".data ∧
    (cleanup stTwoTrans).closed = [] ∧
    (cleanup stTwoTrans).finalState.transports = stTwoTrans.transports := by
  refine ⟨rfl, rfl, rfl⟩

/-- **C3 (amended).** `cleanup` closes the registered transports one by one
in insertion order with no error collection: when every `close()` succeeds
it closes them all and clears the registry, but the first throwing
`close()` escapes immediately — the remaining bindings are not closed and
the registry is not cleared. -/
theorem c3_theorem :
    (∀ st : ClientState, (∀ p ∈ st.transports, p.2.closeFailure = none) →
      cleanup st = { closed := st.transports.map Prod.fst, raised := none,
                     finalState := emptyState }) ∧
    (∀ (st : ClientState) (pre : List (Str × Transport)) (n : Str) (t : Transport)
        (post : List (Str × Transport)) (e : Str),
      st.transports = pre ++ (n, t) :: post →
      (∀ p ∈ pre, p.2.closeFailure = none) →
      t.closeFailure = some e →
      cleanup st = { closed := pre.map Prod.fst, raised := some e, finalState := st }) := by
  constructor
  · intro st h
    unfold cleanup
    rw [cleanupLoop_allOk st.transports h]
  · intro st pre n t post e heq hpre ht
    unfold cleanup
    rw [heq, cleanupLoop_firstFail pre n t post e hpre ht]

/-- Witness for `c3_theorem`: both parts applied to the concrete fixtures. -/
theorem c3_witness :
    cleanup stOneOk = { closed := stOneOk.transports.map Prod.fst, raised := none,
                        finalState := emptyState } ∧
    cleanup stTwoTrans = { closed := List.map Prod.fst ([] : List (Str × Transport)),
                           raised := some "closefail".data,
                           finalState := stTwoTrans } :=
  ⟨c3_theorem.1 stOneOk (by decide),
    c3_theorem.2 stTwoTrans [] ['a'] transBad [(['b'], transOk)] "closefail".data
      rfl (by simp) rfl⟩

/-- A connect oracle for which only server `a` connects. -/
def connectMixed : Str → Except Str (Session × Transport) :=
  fun n => if n = ['a'] then .ok (sessA, transOk) else .error "net".data

/-- A connect oracle for which every connection attempt fails. -/
def connectNone : Str → Except Str (Session × Transport) :=
  fun _ => .error "net".data

/-- **C4.** For every configured provider list (distinct names, as provider
names are unique) and connect behaviour, the connect-all loop of `main`
registers exactly the providers whose connection succeeded — the registry
size equals the number of successful connections — and records each
failure (provider name and cause, in order) while still attempting every
remaining config; no individual failure escapes the loop. -/
theorem c4_theorem (connect : Str → Except Str (Session × Transport))
    (names : List Str) (hnd : names.Nodup) :
    (connectAll connect names emptyState).1.sessions.length =
      (names.filter fun n => isOkB (connect n)).length ∧
    (connectAll connect names emptyState).2 =
      names.filterMap fun n =>
        match connect n with
        | .error e => some (n, e)
        | .ok _ => none := by
  constructor
  · have h := connectAll_sessions_length connect names emptyState hnd
      (fun n _ => rfl)
    simpa [emptyState] using h
  · exact connectAll_errors connect names emptyState

/-- Witness for `c4_theorem`: two configured servers of which only `a`
connects; the registry has one session and the one failure is recorded. -/
theorem c4_witness :
    List.Nodup [['a'], ['b']] ∧
    ((connectAll connectMixed [['a'], ['b']] emptyState).1.sessions.length =
      (List.filter (fun n => isOkB (connectMixed n)) [['a'], ['b']]).length ∧
    (connectAll connectMixed [['a'], ['b']] emptyState).2 =
      List.filterMap (fun n =>
        match connectMixed n with
        | .error e => some (n, e)
        | .ok _ => none) [['a'], ['b']]) :=
  ⟨by decide, c4_theorem connectMixed [['a'], ['b']] (by decide)⟩

/-- **C5.** For every configured provider list on which every connection
attempt fails, the startup phase of `main` throws "Failed to connect to any
server" (the code's realisation of `NoProvidersAvailableError`) and the
run never reaches the conversation loop (`mainRun` does not return a
registry). -/
theorem c5_theorem (connect : Str → Except Str (Session × Transport))
    (names : List Str) (h : ∀ n ∈ names, ∃ e, connect n = .error e) :
    mainRun connect names = .error failedConnectMsg := by
  have h2 : ∀ n ∈ names, isOkB (connect n) = false := by
    intro n hn
    obtain ⟨e, he⟩ := h n hn
    simp [isOkB, he]
  unfold mainRun
  simp only [connectAll_state_of_allFail connect names emptyState h2]
  rfl

/-- Witness for `c5_theorem`: one configured server whose connection
fails. -/
theorem c5_witness :
    mainRun connectNone [['a']] = .error failedConnectMsg :=
  c5_theorem connectNone [['a']] (fun _ _ => ⟨"net".data, rfl⟩)

/-- A connect oracle that always yields the session `sessB` (no tools). -/
def connectB : Str → Except Str (Session × Transport) :=
  fun _ => .ok (sessB, transOk)

/-- **C9.** The claim says registering a session under an already-taken
name fails with `DuplicateProviderError` and leaves the existing
registration unchanged.  It is false: `connectToServer` ends in a plain
`Map.set`, so reconnecting the already-registered name `a` succeeds and
silently replaces the session — the registered tool list changes from
`sessA`'s to `sessB`'s. -/
theorem c9_counterexample :
    connectToServer connectB stOneOk ['a'] =
      .ok { sessions := [(['a'], sessB)], transports := [(['a'], transOk)] } ∧
    (mapGet stOneOk.sessions ['a']).map Session.tools = some [toolT] ∧
    (mapGet [(['a'], sessB)] ['a']).map Session.tools = some [] := by
  refine ⟨rfl, rfl, rfl⟩

/-- **C9 (amended).** For every registry state and provider name already
registered, a successful `connectToServer` under that name does not fail:
it silently overwrites the registration in place — the lookup afterwards
yields the new session while the registry size is unchanged. -/
theorem c9_theorem (connect : Str → Except Str (Session × Transport))
    (st : ClientState) (serverName : Str) (session : Session) (t : Transport)
    (h : connect serverName = .ok (session, t))
    (hdup : (mapGet st.sessions serverName).isSome = true) :
    connectToServer connect st serverName =
      .ok { sessions := mapSet st.sessions serverName session,
            transports := mapSet st.transports serverName t } ∧
    mapGet (mapSet st.sessions serverName session) serverName = some session ∧
    (mapSet st.sessions serverName session).length = st.sessions.length := by
  refine ⟨?_, mapGet_mapSet_self st.sessions serverName session,
    mapSet_length_of_isSome st.sessions serverName session hdup⟩
  simp [connectToServer, h]

/-- Witness for `c9_theorem` at the concrete duplicate registration. -/
theorem c9_witness :
    connectToServer connectB stOneOk ['a'] =
      .ok { sessions := mapSet stOneOk.sessions ['a'] sessB,
            transports := mapSet stOneOk.transports ['a'] transOk } ∧
    mapGet (mapSet stOneOk.sessions ['a'] sessB) ['a'] = some sessB ∧
    (mapSet stOneOk.sessions ['a'] sessB).length = stOneOk.sessions.length :=
  c9_theorem connectB stOneOk ['a'] sessB transOk rfl rfl

end MCPClient
